import Mathlib

/-!
A verification development for the `network-sniffer` Go service
(`internal/storage`, `internal/models`, `pkg/sniffing`).

Modelling conventions:
* Go `time.Time` values are modelled as `Int` nanosecond instants; the zero
  `time.Time` is the integer `0`, `Before` is `<`, `After` is `>`, `IsZero`
  is `= 0`.
* The Go map `map[string]*models.Packet` is modelled as an association list
  `List (String × Packet)` carrying one entry per key; `delete` removes the
  entries with the given key and map assignment replaces in place or appends.
* Go `int` values are modelled as `Int` (no overflow concerns arise at the
  sizes involved).
* A Go slice expression `xs[lo:hi]` is modelled by `goSlice`, which returns
  `none` exactly when the expression would panic (index out of range).
* `rand.Intn n` is modelled as an arbitrary draw `v : Nat` reduced mod `n`,
  so every value in `[0, n)` is attainable and no other value is.
-/

/-- Go struct `models.Packet` (src/internal/models/packet.go). -/
structure Packet where
  ID : String
  SourceIP : String
  DestinationIP : String
  Protocol : String
  Port : Int
  Size : Int
  Timestamp : Int
  TTL : Int
  Flags : String
  Payload : String
deriving Repr, DecidableEq

/-- Go struct `models.PacketResponse`. -/
structure PacketResponse where
  Packets : List Packet
  Total : Int
  Timestamp : Int
deriving Repr, DecidableEq

/-- Go struct `models.PacketFilter`. -/
structure PacketFilter where
  Protocol : String
  SourceIP : String
  DestinationIP : String
  FromTimestamp : Int
  ToTimestamp : Int
  Limit : Int
  Offset : Int
deriving Repr, DecidableEq

/-- The all-defaults filter (Go zero value of `models.PacketFilter`). -/
def emptyFilter : PacketFilter :=
  { Protocol := "", SourceIP := "", DestinationIP := "",
    FromTimestamp := 0, ToTimestamp := 0, Limit := 0, Offset := 0 }

/-- Go struct `InMemoryStorage` (storage source file): a Go map plus `maxSize`. -/
structure InMemoryStorage where
  packets : List (String × Packet)
  maxSize : Int
deriving Repr, DecidableEq

/-- Constructor `NewInMemoryStorage`. -/
def NewInMemoryStorage (maxSize : Int) : InMemoryStorage :=
  { packets := [], maxSize := maxSize }

/-- Go map assignment `m[k] = v`: replace the entry in place when the key is
present, otherwise add a new entry. -/
def mapInsert (l : List (String × Packet)) (k : String) (v : Packet) :
    List (String × Packet) :=
  if l.any (fun e => e.1 = k) then
    l.map (fun e => if e.1 = k then (k, v) else e)
  else
    l ++ [(k, v)]

/-- Go `delete(m, k)`. -/
def mapDelete (l : List (String × Packet)) (k : String) :
    List (String × Packet) :=
  l.filter (fun e => e.1 ≠ k)

/-- The loop body of `removeOldestPacket` after the `first` iteration:
carry the current `(oldestID, oldestTime)` and update it on a strictly
earlier timestamp (`packet.Timestamp.Before(oldestTime)`). -/
def findOldestAux : List (String × Packet) → String → Int → String × Int
  | [], oid, ot => (oid, ot)
  | e :: rest, oid, ot =>
      if e.2.Timestamp < ot then findOldestAux rest e.1 e.2.Timestamp
      else findOldestAux rest oid ot

/-- The scan of `removeOldestPacket`: `oldestID` starts as `""` with
`first = true`; the first entry always installs itself, after which
`findOldestAux` performs the remaining iterations. -/
def findOldest : List (String × Packet) → String
  | [] => ""
  | e :: rest => (findOldestAux rest e.1 e.2.Timestamp).1

/-- Method `InMemoryStorage.removeOldestPacket`: scan for the entry with the
earliest timestamp and delete it, guarded by `oldestID != ""`. -/
def InMemoryStorage.removeOldestPacket (l : List (String × Packet)) :
    List (String × Packet) :=
  let oldestID := findOldest l
  if oldestID ≠ "" then mapDelete l oldestID else l

/-- Method `InMemoryStorage.Store`: evict when `len(s.packets) >= s.maxSize`, then
assign `s.packets[packet.ID] = packet`.  (The `error` result is always
`nil` and is omitted.) -/
def InMemoryStorage.Store (s : InMemoryStorage) (p : Packet) :
    InMemoryStorage :=
  let l :=
    if (s.packets.length : Int) ≥ s.maxSize then
      InMemoryStorage.removeOldestPacket s.packets
    else s.packets
  { s with packets := mapInsert l p.ID p }

/-- Method `InMemoryStorage.matchesFilter` (nil filter matches everything). -/
def InMemoryStorage.matchesFilter (p : Packet) (filter : Option PacketFilter) :
    Bool :=
  match filter with
  | none => true
  | some f =>
      if f.Protocol ≠ "" ∧ p.Protocol ≠ f.Protocol then false
      else if f.SourceIP ≠ "" ∧ p.SourceIP ≠ f.SourceIP then false
      else if f.DestinationIP ≠ "" ∧ p.DestinationIP ≠ f.DestinationIP then false
      else if f.FromTimestamp ≠ 0 ∧ p.Timestamp < f.FromTimestamp then false
      else if f.ToTimestamp ≠ 0 ∧ p.Timestamp > f.ToTimestamp then false
      else true

/-- Go slice expression `xs[lo:hi]` on a slice of length `xs.length`;
`none` models the index-out-of-range panic. -/
def goSlice {α : Type} (xs : List α) (lo hi : Int) : Option (List α) :=
  if 0 ≤ lo ∧ lo ≤ hi ∧ hi ≤ (xs.length : Int) then
    some ((xs.drop lo.toNat).take (hi - lo).toNat)
  else
    none

/-- Method `InMemoryStorage.Get`: collect the matching packets (in the iteration
order of the map, modelled by the entry-list order), then paginate when
`filter != nil && filter.Limit > 0`.  `now` stands for the `time.Now()`
read for the response timestamp; `none` models a panic in the slice
expressions. -/
def InMemoryStorage.Get (s : InMemoryStorage) (filter : Option PacketFilter)
    (now : Int) : Option PacketResponse :=
  let packets :=
    (s.packets.filter (fun e => InMemoryStorage.matchesFilter e.2 filter)).map
      (fun e => e.2)
  let paginated : Option (List Packet) :=
    match filter with
    | some f =>
        if f.Limit > 0 then
          let start := f.Offset
          let stop := start + f.Limit
          if start ≥ (packets.length : Int) then some []
          else if stop > (packets.length : Int) then
            goSlice packets start (packets.length : Int)
          else goSlice packets start stop
        else some packets
    | none => some packets
  match paginated with
  | none => none
  | some ps => some { Packets := ps, Total := (ps.length : Int), Timestamp := now }

/-- The number of records matching `filter` before pagination (the length
of the `packets` list built by the collection loop in `Get`). -/
def InMemoryStorage.matchCount (s : InMemoryStorage)
    (filter : Option PacketFilter) : Int :=
  ((s.packets.filter (fun e => InMemoryStorage.matchesFilter e.2 filter)).length : Int)

/-- Helper for building concrete packets in examples: only the identifier
and the creation timestamp vary, the rest are fixed representative values. -/
def mkP (id : String) (ts : Int) : Packet :=
  { ID := id, SourceIP := "10.0.0.1", DestinationIP := "8.8.8.8",
    Protocol := "TCP", Port := 443, Size := 100, Timestamp := ts,
    TTL := 64, Flags := "SYN", Payload := "" }

/-- Left-pad a number with zeros to width `w` (Go `fmt.Sprintf("%0*d", w, n)`
and the fixed-width fields of the `20060102150405` time layout). -/
def padNum (w n : Nat) : String :=
  let s := toString n
  String.mk (List.replicate (w - s.length) '0') ++ s

/-- Gregorian calendar date for a day count since 1970-01-01 (the
civil-from-days algorithm); used to render the Go time layout
`20060102150405`. -/
def civilFromDays (z0 : Nat) : Nat × Nat × Nat :=
  let z := z0 + 719468
  let era := z / 146097
  let doe := z % 146097
  let yoe := (doe - doe / 1460 + doe / 36524 - doe / 146096) / 365
  let y := yoe + era * 400
  let doy := doe - (365 * yoe + yoe / 4 - yoe / 100)
  let mp := (5 * doy + 2) / 153
  let d := doy - (153 * mp + 2) / 5 + 1
  let m := if mp < 10 then mp + 3 else mp - 9
  (if m ≤ 2 then y + 1 else y, m, d)

/-- Go `time.Now().Format("20060102150405")` for a clock reading of `t`
nanoseconds since the epoch (rendered in UTC; the timezone offset does not
matter for any property proved here). -/
def formatDateTime (t : Nat) : String :=
  let secs := t / 1000000000
  let days := secs / 86400
  let sod := secs % 86400
  let ymd := civilFromDays days
  padNum 4 ymd.1 ++ padNum 2 ymd.2.1 ++ padNum 2 ymd.2.2 ++
    padNum 2 (sod / 3600) ++ padNum 2 ((sod % 3600) / 60) ++ padNum 2 (sod % 60)

/-- Function `models.generatePacketID`: the two `time.Now()` calls of the Go
expression are the explicit clock readings `t1` (for the `20060102150405`
format) and `t2` (for `UnixNano() % 1000000000`); the ID is a pure function
of those readings. -/
def generatePacketID (t1 t2 : Nat) : String :=
  "packet_" ++ formatDateTime t1 ++ "_" ++ padNum 9 (t2 % 1000000000)

/-- Function `models.NewPacket`: `t1`, `t2` are the clock readings inside
`generatePacketID` and `now` is the `time.Now()` read for `Timestamp`. -/
def NewPacket (sourceIP destIP protocol : String) (port size : Int)
    (t1 t2 : Nat) (now : Int) : Packet :=
  { ID := generatePacketID t1 t2, SourceIP := sourceIP,
    DestinationIP := destIP, Protocol := protocol, Port := port,
    Size := size, Timestamp := now, TTL := 64, Flags := "SYN", Payload := "" }

/-- Go struct `PacketSniffer` (pkg/sniffing source): the mutable state
relevant to the lifecycle — the unsynchronized `isRunning` flag and whether
`close(stopChan)` has been executed (`stopChan` is created once in
`NewPacketSniffer` and never replaced). -/
structure PacketSniffer where
  isRunning : Bool
  stopClosed : Bool
deriving Repr, DecidableEq

/-- Constructor `NewPacketSniffer`: not running, `stopChan` open. -/
def NewPacketSniffer : PacketSniffer :=
  { isRunning := false, stopClosed := false }

/-- Method `PacketSniffer.Start` (state effect on the calling goroutine):
no-op if already running, otherwise set `isRunning` and spawn the tick
loop.  The behaviour of the spawned loop is `tickLoop`. -/
def PacketSniffer.Start (s : PacketSniffer) : PacketSniffer :=
  if s.isRunning then s else { s with isRunning := true }

/-- Method `PacketSniffer.Stop`: no-op if not running, otherwise
`close(s.stopChan)` followed by `isRunning = false`.  Closing an
already-closed channel panics, modelled by `none`. -/
def PacketSniffer.Stop (s : PacketSniffer) : Option PacketSniffer :=
  if ¬ s.isRunning then some s
  else if s.stopClosed then none
  else some { isRunning := false, stopClosed := true }

/-- Method `PacketSniffer.IsRunning`. -/
def PacketSniffer.IsRunning (s : PacketSniffer) : Bool :=
  s.isRunning

/-- Number of packets generated and stored by the spawned tick loop within
`n` ticker intervals, for a run during which the context is (not) done and
`stopChan` is (not) closed.  Each iteration the `select` takes whichever
case is ready: a done context or a closed `stopChan` is ready immediately
and wins against the ticker (which first fires after one full interval), so
the loop returns without storing; otherwise the ticker case runs
`generateAndStorePacket` once per interval. -/
def tickLoop (ctxDone stopClosed : Bool) : Nat → Nat
  | 0 => 0
  | n + 1 => if ctxDone || stopClosed then 0 else 1 + tickLoop ctxDone stopClosed n

/-- Shared state of the sniffer as seen by concurrently executing `Stop`
calls: the two fields plus whether a `close` of the closed channel has
panicked. -/
structure SnifferShared where
  isRunning : Bool
  stopClosed : Bool
  panicked : Bool
deriving Repr, DecidableEq

/-- One atomic step of `PacketSniffer.Stop` by a thread at program counter
`pc`: `pc = 0` is the unsynchronized `if !s.isRunning` read, `pc = 1` the
`close(s.stopChan)` (panics when already closed), `pc = 2` the
`s.isRunning = false` write; `pc = 3` is the returned state. -/
def stopStep (sh : SnifferShared) (pc : Nat) : SnifferShared × Nat :=
  match pc with
  | 0 => if sh.isRunning then (sh, 1) else (sh, 3)
  | 1 =>
      if sh.stopClosed then ({ sh with panicked := true }, 3)
      else ({ sh with stopClosed := true }, 2)
  | 2 => ({ sh with isRunning := false }, 3)
  | _ => (sh, 3)

/-- Interleaved execution of two concurrent `Stop` invocations `A` and `B`
under a schedule (`true` steps `A`, `false` steps `B`). -/
def runTwoStops : List Bool → SnifferShared × Nat × Nat → SnifferShared × Nat × Nat
  | [], c => c
  | b :: rest, (sh, pcA, pcB) =>
      if b then
        let r := stopStep sh pcA
        runTwoStops rest (r.1, r.2, pcB)
      else
        let r := stopStep sh pcB
        runTwoStops rest (r.1, pcA, r.2)

/-- Slice `commonIPs` from `NewPacketSniffer`. -/
def commonIPs : List String :=
  ["192.168.1.1", "192.168.1.100", "192.168.1.101", "192.168.1.102",
   "10.0.0.1", "10.0.0.2", "10.0.0.3", "10.0.0.4",
   "172.16.0.1", "172.16.0.2", "172.16.0.3",
   "8.8.8.8", "1.1.1.1", "208.67.222.222",
   "142.250.190.78", "151.101.1.69", "104.16.124.96"]

/-- Slice `commonPorts` from `NewPacketSniffer`. -/
def commonPorts : List Int :=
  [80, 443, 22, 21, 25, 53, 110, 143, 993, 995,
   8080, 8443, 3000, 5000, 8000, 9000]

/-- Slice `protocols` from `NewPacketSniffer`. -/
def protocols : List String := ["TCP", "UDP", "HTTP", "HTTPS"]

/-- Local slice `flags` in `generateRandomPacket`. -/
def flagsChoices : List String := ["SYN", "ACK", "FIN", "RST", "PSH", "URG"]

/-- Local slice `payloads` in `generateRandomPacket`. -/
def payloadChoices : List String :=
  ["GET / HTTP/1.1", "POST /api/data HTTP/1.1",
   "PUT /resource HTTP/1.1", "DELETE /item/123 HTTP/1.1"]

/-- Model of `rand.Intn n`: an arbitrary draw reduced into `[0, n)`. -/
def randIntn (n : Nat) (v : Nat) : Nat := v % n

/-- The random draws and clock readings consumed by one
`generateRandomPacket` call.  The two `rand.Float32() < c` comparisons are
modelled as the boolean coins `ttlCoin` / `flagsCoin`. -/
structure SnifferRand where
  srcDraw : Nat
  destDraws : List Nat
  portDraw : Nat
  protoDraw : Nat
  sizeDraw : Nat
  ttlCoin : Bool
  ttlDraw : Nat
  flagsCoin : Bool
  flagsDraw : Nat
  payloadDraw : Nat
  t1 : Nat
  t2 : Nat
  now : Int

/-- The `for destIP == sourceIP` re-draw loop of `generateRandomPacket`:
consume draws until one denotes an IP different from the source; `none`
models the (probability-zero) case that the loop has not terminated within
the supplied draws. -/
def pickDest (src : String) : List Nat → Option String
  | [] => none
  | v :: rest =>
      let d := commonIPs.getD (randIntn commonIPs.length v) ""
      if d = src then pickDest src rest else some d

/-- Method `PacketSniffer.generateRandomPacket` as a function of its random
draws and clock readings. -/
def generateRandomPacket (r : SnifferRand) : Option Packet :=
  let sourceIP := commonIPs.getD (randIntn commonIPs.length r.srcDraw) ""
  match pickDest sourceIP r.destDraws with
  | none => none
  | some destIP =>
      let port := commonPorts.getD (randIntn commonPorts.length r.portDraw) 0
      let protocol := protocols.getD (randIntn protocols.length r.protoDraw) ""
      let size : Int := ((randIntn 1436 r.sizeDraw : Nat) : Int) + 64
      let p0 := NewPacket sourceIP destIP protocol port size r.t1 r.t2 r.now
      let p1 :=
        if r.ttlCoin then
          { p0 with TTL := ((randIntn 64 r.ttlDraw : Nat) : Int) + 32 }
        else p0
      let p2 :=
        if r.flagsCoin then
          { p1 with Flags := flagsChoices.getD (randIntn flagsChoices.length r.flagsDraw) "" }
        else p1
      let p3 :=
        if protocol = "HTTP" ∨ protocol = "HTTPS" then
          { p2 with Payload := payloadChoices.getD (randIntn payloadChoices.length r.payloadDraw) "" }
        else p2
      some p3

/-! ### Lemmas about the eviction scan -/

theorem findOldestAux_eq_of_le (l : List (String × Packet)) :
    ∀ (oid : String) (ot : Int), (∀ e ∈ l, ot ≤ e.2.Timestamp) →
      findOldestAux l oid ot = (oid, ot) := by
  induction l with
  | nil => intro oid ot _; rfl
  | cons a rest ih =>
      intro oid ot h
      have ha : ot ≤ a.2.Timestamp := h a (List.mem_cons_self a rest)
      simp only [findOldestAux]
      rw [if_neg (by omega)]
      exact ih oid ot (fun e he => h e (List.mem_cons_of_mem a he))

theorem findOldestAux_min (l : List (String × Packet)) :
    ∀ (oid : String) (ot : Int) (m : String × Packet), m ∈ l →
      m.2.Timestamp < ot →
      (∀ e ∈ l, e ≠ m → m.2.Timestamp < e.2.Timestamp) →
      findOldestAux l oid ot = (m.1, m.2.Timestamp) := by
  induction l with
  | nil => intro oid ot m hm; exact absurd hm (List.not_mem_nil m)
  | cons a rest ih =>
      intro oid ot m hm hlt hmin
      by_cases hae : a = m
      · subst hae
        simp only [findOldestAux, if_pos hlt]
        exact findOldestAux_eq_of_le rest a.1 a.2.Timestamp (fun e he => by
          by_cases hea : e = a
          · subst hea; omega
          · exact le_of_lt (hmin e (List.mem_cons_of_mem a he) hea))
      · have hmr : m ∈ rest := by
          rcases List.mem_cons.mp hm with h | h
          · exact absurd h.symm hae
          · exact h
        have hma : m.2.Timestamp < a.2.Timestamp :=
          hmin a (List.mem_cons_self a rest) hae
        have hrest : ∀ e ∈ rest, e ≠ m → m.2.Timestamp < e.2.Timestamp :=
          fun e he hne => hmin e (List.mem_cons_of_mem a he) hne
        simp only [findOldestAux]
        by_cases hup : a.2.Timestamp < ot
        · rw [if_pos hup]; exact ih a.1 a.2.Timestamp m hmr hma hrest
        · rw [if_neg hup]; exact ih oid ot m hmr (by omega) hrest

theorem findOldest_min (l : List (String × Packet)) (m : String × Packet)
    (hm : m ∈ l) (hmin : ∀ e ∈ l, e ≠ m → m.2.Timestamp < e.2.Timestamp) :
    findOldest l = m.1 := by
  cases l with
  | nil => exact absurd hm (List.not_mem_nil m)
  | cons a rest =>
      show (findOldestAux rest a.1 a.2.Timestamp).1 = m.1
      by_cases hae : a = m
      · subst hae
        rw [findOldestAux_eq_of_le rest a.1 a.2.Timestamp (fun e he => by
          by_cases hea : e = a
          · subst hea; omega
          · exact le_of_lt (hmin e (List.mem_cons_of_mem a he) hea))]
      · have hmr : m ∈ rest := by
          rcases List.mem_cons.mp hm with h | h
          · exact absurd h.symm hae
          · exact h
        have hma : m.2.Timestamp < a.2.Timestamp :=
          hmin a (List.mem_cons_self a rest) hae
        rw [findOldestAux_min rest a.1 a.2.Timestamp m hmr hma
          (fun e he hne => hmin e (List.mem_cons_of_mem a he) hne)]

theorem findOldestAux_mem (l : List (String × Packet)) :
    ∀ (oid : String) (ot : Int),
      (findOldestAux l oid ot).1 = oid ∨
        (findOldestAux l oid ot).1 ∈ l.map (fun e => e.1) := by
  induction l with
  | nil => intro oid ot; exact Or.inl rfl
  | cons a rest ih =>
      intro oid ot
      simp only [findOldestAux]
      by_cases hup : a.2.Timestamp < ot
      · rw [if_pos hup]
        rcases ih a.1 a.2.Timestamp with h | h
        · exact Or.inr (by rw [h]; exact List.mem_map.mpr ⟨a, List.mem_cons_self a rest, rfl⟩)
        · exact Or.inr (List.mem_cons_of_mem _ h)
      · rw [if_neg hup]
        rcases ih oid ot with h | h
        · exact Or.inl h
        · exact Or.inr (List.mem_cons_of_mem _ h)

theorem findOldest_mem (l : List (String × Packet)) (hl : l ≠ []) :
    findOldest l ∈ l.map (fun e => e.1) := by
  cases l with
  | nil => exact absurd rfl hl
  | cons a rest =>
      show (findOldestAux rest a.1 a.2.Timestamp).1 ∈ _
      rcases findOldestAux_mem rest a.1 a.2.Timestamp with h | h
      · rw [h]; exact List.mem_map.mpr ⟨a, List.mem_cons_self a rest, rfl⟩
      · exact List.mem_cons_of_mem _ h

/-! ### Lemmas about the map model -/

theorem mapInsert_length_le (l : List (String × Packet)) (k : String)
    (v : Packet) : (mapInsert l k v).length ≤ l.length + 1 := by
  unfold mapInsert
  split
  · rw [List.length_map]; omega
  · rw [List.length_append]; simp

theorem mapInsert_forall_keys (l : List (String × Packet)) (k : String)
    (v : Packet) (P : String → Prop) (h : ∀ e ∈ l, P e.1) (hk : P k) :
    ∀ e ∈ mapInsert l k v, P e.1 := by
  unfold mapInsert
  split
  · intro e he
    rcases List.mem_map.mp he with ⟨x, hx, rfl⟩
    by_cases hxk : x.1 = k
    · rw [if_pos hxk]; exact hk
    · rw [if_neg hxk]; exact h x hx
  · intro e he
    rcases List.mem_append.mp he with h1 | h1
    · exact h e h1
    · rcases List.mem_singleton.mp h1 with rfl
      exact hk

theorem mapInsert_append_of_fresh (l : List (String × Packet)) (k : String)
    (v : Packet) (h : ∀ e ∈ l, e.1 ≠ k) : mapInsert l k v = l ++ [(k, v)] := by
  unfold mapInsert
  rw [if_neg]
  intro hany
  rcases List.any_eq_true.mp hany with ⟨e, he, hek⟩
  exact h e he (by simpa using hek)

theorem mapInsert_keys_of_mem (l : List (String × Packet)) (k : String)
    (v : Packet) (h : ∃ e ∈ l, e.1 = k) :
    (mapInsert l k v).map (fun e => e.1) = l.map (fun e => e.1) ∧
      (mapInsert l k v).length = l.length := by
  unfold mapInsert
  rw [if_pos]
  · constructor
    · rw [List.map_map]
      apply List.map_congr_left
      intro e _
      by_cases hek : e.1 = k
      · simp [hek]
      · simp [hek]
    · rw [List.length_map]
  · rcases h with ⟨e, he, hek⟩
    exact List.any_eq_true.mpr ⟨e, he, by simpa using hek⟩

theorem mapDelete_keys (l : List (String × Packet)) (k : String) :
    (mapDelete l k).map (fun e => e.1) =
      (l.map (fun e => e.1)).filter (fun x => x ≠ k) := by
  induction l with
  | nil => rfl
  | cons a rest ih =>
      unfold mapDelete at ih ⊢
      by_cases hak : a.1 = k
      · simp only [List.filter_cons, List.map_cons]
        rw [if_neg (by simpa using hak), if_neg (by simpa using hak)]
        exact ih
      · simp only [List.filter_cons, List.map_cons]
        rw [if_pos (by simpa using hak), if_pos (by simpa using hak)]
        simp only [List.map_cons]
        rw [ih]

theorem mapDelete_length (l : List (String × Packet)) (k : String) (v : Packet)
    (hkv : (k, v) ∈ l) (hnodup : (l.map (fun e => e.1)).Nodup) :
    (mapDelete l k).length + 1 = l.length := by
  induction l with
  | nil => exact absurd hkv (List.not_mem_nil _)
  | cons a rest ih =>
      unfold mapDelete at ih ⊢
      rcases List.map_cons (fun e : String × Packet => e.1) a rest ▸ hnodup
        with hnodup'
      have hnd2 := List.nodup_cons.mp hnodup'
      by_cases hak : a.1 = k
      · rw [List.filter_cons, if_neg (by simpa using hak)]
        have hrest : ∀ e ∈ rest, e.1 ≠ k := by
          intro e he hek
          exact hnd2.1 (hak ▸ hek ▸ List.mem_map.mpr ⟨e, he, rfl⟩)
        rw [List.filter_eq_self.mpr (fun e he => by simpa using hrest e he)]
        simp
      · rw [List.filter_cons, if_pos (by simpa using hak)]
        have hkv' : (k, v) ∈ rest := by
          rcases List.mem_cons.mp hkv with h | h
          · exact absurd (congrArg Prod.fst h.symm) hak
          · exact h
        have := ih hkv' hnd2.2
        simp only [List.length_cons]
        omega

theorem mapDelete_subset (l : List (String × Packet)) (k : String) :
    ∀ e ∈ mapDelete l k, e ∈ l := by
  intro e he
  exact List.mem_of_mem_filter he

/-! ### Store and the capacity invariant -/

theorem removeOldestPacket_length_lt (l : List (String × Packet))
    (hl : l ≠ []) (hne : ∀ e ∈ l, e.1 ≠ "") :
    (InMemoryStorage.removeOldestPacket l).length < l.length := by
  unfold InMemoryStorage.removeOldestPacket
  have hmem := findOldest_mem l hl
  rcases List.mem_map.mp hmem with ⟨e, he, hek⟩
  have hnz : findOldest l ≠ "" := by rw [← hek]; exact hne e he
  rw [if_pos hnz]
  unfold mapDelete
  rw [List.length_filter_lt_length_iff_exists]
  exact ⟨e, he, by simpa using hek⟩

theorem removeOldestPacket_subset (l : List (String × Packet)) :
    ∀ e ∈ InMemoryStorage.removeOldestPacket l, e ∈ l := by
  intro e he
  by_cases hnz : findOldest l ≠ ""
  · rw [InMemoryStorage.removeOldestPacket, if_pos hnz] at he
    exact mapDelete_subset l _ e he
  · rwa [InMemoryStorage.removeOldestPacket, if_neg hnz] at he

theorem Store_packets (s : InMemoryStorage) (p : Packet) :
    (s.Store p).packets =
      mapInsert
        (if (s.packets.length : Int) ≥ s.maxSize then
          InMemoryStorage.removeOldestPacket s.packets
        else s.packets) p.ID p := rfl

theorem Store_maxSize (s : InMemoryStorage) (p : Packet) :
    (s.Store p).maxSize = s.maxSize := rfl

theorem Store_inv (s : InMemoryStorage) (p : Packet)
    (h1 : ∀ e ∈ s.packets, e.1 ≠ "") (h2 : (s.packets.length : Int) ≤ s.maxSize)
    (h3 : 1 ≤ s.maxSize) (hp : p.ID ≠ "") :
    (∀ e ∈ (s.Store p).packets, e.1 ≠ "") ∧
      ((s.Store p).packets.length : Int) ≤ s.maxSize ∧
      (s.Store p).maxSize = s.maxSize := by
  rw [Store_packets]
  by_cases hcap : (s.packets.length : Int) ≥ s.maxSize
  · rw [if_pos hcap]
    have hnonempty : s.packets ≠ [] := by
      intro hnil
      rw [hnil] at hcap
      simp at hcap
      omega
    have hlt := removeOldestPacket_length_lt s.packets hnonempty h1
    refine ⟨?_, ?_, rfl⟩
    · exact mapInsert_forall_keys _ p.ID p (fun x => x ≠ "")
        (fun e he => h1 e (removeOldestPacket_subset s.packets e he)) hp
    · have := mapInsert_length_le (InMemoryStorage.removeOldestPacket s.packets) p.ID p
      omega
  · rw [if_neg hcap]
    refine ⟨mapInsert_forall_keys _ p.ID p (fun x => x ≠ "") h1 hp, ?_, rfl⟩
    have := mapInsert_length_le s.packets p.ID p
    omega

theorem foldl_Store_inv (ps : List Packet) :
    ∀ (s : InMemoryStorage), (∀ p ∈ ps, p.ID ≠ "") →
      (∀ e ∈ s.packets, e.1 ≠ "") → ((s.packets.length : Int) ≤ s.maxSize) →
      1 ≤ s.maxSize →
      ((ps.foldl InMemoryStorage.Store s).packets.length : Int) ≤ s.maxSize := by
  induction ps with
  | nil => intro s _ h2 h3 _; simpa using h3
  | cons p rest ih =>
      intro s hps h1 h2 h3
      rw [List.foldl_cons]
      have hp : p.ID ≠ "" := hps p (List.mem_cons_self p rest)
      obtain ⟨g1, g2, g3⟩ := Store_inv s p h1 h2 h3 hp
      have := ih (s.Store p) (fun q hq => hps q (List.mem_cons_of_mem p hq))
        g1 (by rw [g3]; exact g2) (by rw [g3]; exact h3)
      rw [g3] at this
      exact this

/-- C1, as literally stated, fails on the code: a record whose identifier is
the empty string defeats the `oldestID != ""` guard of
`removeOldestPacket`, so no eviction happens and the store grows beyond its
capacity.  Concretely: capacity 1, insert a record with ID `""`, then a
record with ID `"x"` — the store then holds 2 records. -/
theorem claim_C1_counterexample :
    (1 : Int) ≥ 1 ∧
      (([mkP "" 0, mkP "x" 1].foldl InMemoryStorage.Store
          (NewInMemoryStorage 1)).packets.length : Int) = 2 := by
  exact ⟨by norm_num, by rfl⟩

/-- C1 (amended): for every store created with capacity `N ≥ 1` and every
sequence of `Store` calls whose records all carry a non-empty identifier,
after each insert (i.e. after folding any prefix of the sequence) the
number of records held is at most `N`. -/
theorem claim_C1_capacity_invariant (N : Int) (ps : List Packet)
    (hN : 1 ≤ N) (hne : ∀ p ∈ ps, p.ID ≠ "") :
    ∀ k : Nat,
      (((ps.take k).foldl InMemoryStorage.Store
          (NewInMemoryStorage N)).packets.length : Int) ≤ N := by
  intro k
  exact foldl_Store_inv (ps.take k) (NewInMemoryStorage N)
    (fun p hp => hne p (List.mem_of_mem_take hp))
    (by intro e he; exact absurd he (List.not_mem_nil e))
    (by simp [NewInMemoryStorage]; omega) hN

/-- Witness for C1: capacity 1, two well-formed inserts, every prefix stays
within capacity. -/
theorem claim_C1_witness :
    (((([mkP "a" 0, mkP "b" 1]).take 2).foldl InMemoryStorage.Store
        (NewInMemoryStorage 1)).packets.length : Int) ≤ 1 :=
  claim_C1_capacity_invariant 1 [mkP "a" 0, mkP "b" 1] (by norm_num)
    (by intro p hp; fin_cases hp <;> simp [mkP]) 2

/-! ### Lemmas about Get and pagination -/

theorem Get_eq_of_pos (s : InMemoryStorage) (f : PacketFilter) (now : Int)
    (hL : 0 < f.Limit) (hO : 0 ≤ f.Offset) :
    ∃ ps : List Packet,
      InMemoryStorage.Get s (some f) now =
        some { Packets := ps, Total := (ps.length : Int), Timestamp := now } ∧
      ps = ((((s.packets.filter
              (fun e => InMemoryStorage.matchesFilter e.2 (some f))).map
              (fun e => e.2)).drop f.Offset.toNat).take
            (min f.Limit (InMemoryStorage.matchCount s (some f) - f.Offset)).toNat) := by
  simp only [InMemoryStorage.Get, InMemoryStorage.matchCount]
  set m := (s.packets.filter
    (fun e => InMemoryStorage.matchesFilter e.2 (some f))).map (fun e => e.2) with hm
  have hmlen : ((s.packets.filter
      (fun e => InMemoryStorage.matchesFilter e.2 (some f))).length : Int) =
      (m.length : Int) := by rw [hm, List.length_map]
  rw [hmlen]
  rw [if_pos hL]
  by_cases h1 : f.Offset ≥ (m.length : Int)
  · rw [if_pos h1]
    refine ⟨[], rfl, ?_⟩
    have : (min f.Limit ((m.length : Int) - f.Offset)).toNat = 0 := by omega
    rw [this, List.take_zero]
  · rw [if_neg h1]
    by_cases h2 : f.Offset + f.Limit > (m.length : Int)
    · rw [if_pos h2]
      have hcond : 0 ≤ f.Offset ∧ f.Offset ≤ (m.length : Int) ∧
          (m.length : Int) ≤ (m.length : Int) := by omega
      rw [goSlice, if_pos hcond]
      refine ⟨_, rfl, ?_⟩
      have : ((m.length : Int) - f.Offset).toNat =
          (min f.Limit ((m.length : Int) - f.Offset)).toNat := by omega
      rw [this]
    · rw [if_neg h2]
      have hcond : 0 ≤ f.Offset ∧ f.Offset ≤ f.Offset + f.Limit ∧
          f.Offset + f.Limit ≤ (m.length : Int) := by omega
      rw [goSlice, if_pos hcond]
      refine ⟨_, rfl, ?_⟩
      have : (f.Offset + f.Limit - f.Offset).toNat =
          (min f.Limit ((m.length : Int) - f.Offset)).toNat := by omega
      rw [this]

theorem Get_total_eq (s : InMemoryStorage) (filter : Option PacketFilter)
    (now : Int) (r : PacketResponse)
    (h : InMemoryStorage.Get s filter now = some r) :
    r.Total = (r.Packets.length : Int) := by
  simp only [InMemoryStorage.Get] at h
  split at h
  · exact absurd h (by simp)
  · obtain rfl := Option.some_inj.mp h
    rfl

/-- Concrete store used in several examples: capacity 100, two records. -/
def storeA : InMemoryStorage :=
  InMemoryStorage.Store
    (InMemoryStorage.Store (NewInMemoryStorage 100) (mkP "a" 0)) (mkP "b" 10)

/-- Concrete response of `Get storeA none 0`. -/
def respA : PacketResponse :=
  { Packets := [mkP "a" 0, mkP "b" 10], Total := 2, Timestamp := 0 }

/-- C2, as stated, fails on the code: with two matching records and
`Limit = 1`, the `Total` of the response is `1` (the post-pagination count), not
the pre-pagination match count `2` — `Get` sets `Total: len(packets)` only
after the slicing. -/
theorem claim_C2_counterexample :
    ((InMemoryStorage.Get storeA (some { emptyFilter with Limit := 1 }) 0).map
        PacketResponse.Total = some 1) ∧
      InMemoryStorage.matchCount storeA
        (some { emptyFilter with Limit := 1 }) = 2 :=
  ⟨rfl, rfl⟩

/-- C2 (amended): the `Total` field of every response returned by `Get`
equals the post-filter, **post-pagination** count — the length of the
returned `Packets` list; it equals the pre-pagination match count only in
the cases where no pagination is applied (nil filter, or `Limit ≤ 0`). -/
theorem claim_C2_total_semantics (s : InMemoryStorage)
    (filter : Option PacketFilter) (now : Int) (r : PacketResponse)
    (h : InMemoryStorage.Get s filter now = some r) :
    r.Total = (r.Packets.length : Int) ∧
      ((filter = none ∨ ∃ f, filter = some f ∧ f.Limit ≤ 0) →
        r.Total = InMemoryStorage.matchCount s filter) := by
  refine ⟨Get_total_eq s filter now r h, ?_⟩
  rintro (rfl | ⟨f, rfl, hf⟩)
  · simp only [InMemoryStorage.Get] at h
    obtain rfl := Option.some_inj.mp h
    simp [InMemoryStorage.matchCount]
  · simp only [InMemoryStorage.Get] at h
    rw [if_neg (by omega)] at h
    obtain rfl := Option.some_inj.mp h
    simp [InMemoryStorage.matchCount]

/-- Witness for C2 (amended), at a concrete store and the nil filter. -/
theorem claim_C2_witness :
    respA.Total = (respA.Packets.length : Int) ∧
      respA.Total = InMemoryStorage.matchCount storeA none := by
  have h := claim_C2_total_semantics storeA none 0 respA rfl
  exact ⟨h.1, h.2 (Or.inl rfl)⟩

/-- C5: with `Limit = L > 0` and `Offset = O ≥ 0` against a match set of
size `M`, `Get` returns normally and yields exactly
`max 0 (min L (M − O))` records; when `O ≥ M` the returned list is empty. -/
theorem claim_C5_pagination_count (s : InMemoryStorage) (f : PacketFilter)
    (now : Int) (hL : 0 < f.Limit) (hO : 0 ≤ f.Offset) :
    ∃ r, InMemoryStorage.Get s (some f) now = some r ∧
      (r.Packets.length : Int) =
        max 0 (min f.Limit (InMemoryStorage.matchCount s (some f) - f.Offset)) ∧
      (InMemoryStorage.matchCount s (some f) ≤ f.Offset → r.Packets = []) := by
  obtain ⟨ps, hget, hps⟩ := Get_eq_of_pos s f now hL hO
  have hM : InMemoryStorage.matchCount s (some f) =
      (((s.packets.filter
          (fun e => InMemoryStorage.matchesFilter e.2 (some f))).map
          (fun e => e.2)).length : Int) := by
    rw [InMemoryStorage.matchCount, List.length_map]
  refine ⟨_, hget, ?_, ?_⟩
  · show ((ps.length : Nat) : Int) = _
    rw [hps]
    simp only [List.length_take, List.length_drop]
    omega
  · intro hle
    show ps = []
    rw [hps]
    have : (min f.Limit (InMemoryStorage.matchCount s (some f) - f.Offset)).toNat
        = 0 := by omega
    rw [this, List.take_zero]

/-- Witness for C5: two matching records, limit 1, offset 1 — exactly
`max 0 (min 1 (2 − 1)) = 1` record comes back. -/
theorem claim_C5_witness :
    ∃ r, InMemoryStorage.Get storeA
        (some { emptyFilter with Limit := 1, Offset := 1 }) 0 = some r ∧
      (r.Packets.length : Int) =
        max 0 (min ({ emptyFilter with Limit := 1, Offset := 1 } : PacketFilter).Limit
          (InMemoryStorage.matchCount storeA
              (some { emptyFilter with Limit := 1, Offset := 1 }) -
            ({ emptyFilter with Limit := 1, Offset := 1 } : PacketFilter).Offset)) ∧
      (InMemoryStorage.matchCount storeA
          (some { emptyFilter with Limit := 1, Offset := 1 }) ≤
          ({ emptyFilter with Limit := 1, Offset := 1 } : PacketFilter).Offset →
        r.Packets = []) :=
  claim_C5_pagination_count storeA { emptyFilter with Limit := 1, Offset := 1 } 0
    (by norm_num) (by norm_num)

/-- C9: the pagination slice can panic exactly for negative offsets — with
`Limit > 0`, a negative `Offset` and at least one matching record the
embedded slice expression is out of bounds (`Get` hits the panic branch,
modelled as `none`); with any `Offset ≥ 0` the panic branch is unreachable
and `Get` returns normally. -/
theorem claim_C9_offset_safety :
    (InMemoryStorage.matchCount storeA
        (some { emptyFilter with Limit := 1, Offset := -1 }) = 2 ∧
      InMemoryStorage.Get storeA
        (some { emptyFilter with Limit := 1, Offset := -1 }) 0 = none) ∧
    (∀ (s : InMemoryStorage) (f : PacketFilter) (now : Int),
      0 ≤ f.Offset → (InMemoryStorage.Get s (some f) now).isSome = true) := by
  refine ⟨⟨rfl, rfl⟩, ?_⟩
  intro s f now hO
  by_cases hL : 0 < f.Limit
  · obtain ⟨ps, hget, _⟩ := Get_eq_of_pos s f now hL hO
    rw [hget]
    rfl
  · simp only [InMemoryStorage.Get]
    rw [if_neg hL]
    rfl

/-- Witness for the universal part of C9 at a concrete store and filter. -/
theorem claim_C9_witness :
    (InMemoryStorage.Get storeA
        (some { emptyFilter with Limit := 1, Offset := 0 }) 0).isSome = true :=
  claim_C9_offset_safety.2 storeA { emptyFilter with Limit := 1, Offset := 0 } 0
    (by norm_num)

/-! ### Eviction behaviour of Store: claims C3 and C4 -/

theorem foldl_Store_fresh (ps : List Packet) :
    ∀ (s : InMemoryStorage),
      ((s.packets.length : Int) + ps.length ≤ s.maxSize) →
      (∀ p ∈ ps, ∀ e ∈ s.packets, e.1 ≠ p.ID) →
      (ps.map Packet.ID).Nodup →
      ps.foldl InMemoryStorage.Store s =
        { packets := s.packets ++ ps.map (fun p => (p.ID, p)),
          maxSize := s.maxSize } := by
  induction ps with
  | nil => intro s _ _ _; simp
  | cons p rest ih =>
      intro s hlen hfresh hnodup
      have hcap : ¬ ((s.packets.length : Int) ≥ s.maxSize) := by
        simp only [List.length_cons] at hlen
        push_cast at hlen
        omega
      have h1 : (s.Store p).packets = s.packets ++ [(p.ID, p)] := by
        rw [Store_packets, if_neg hcap]
        exact mapInsert_append_of_fresh s.packets p.ID p
          (fun e he => hfresh p (List.mem_cons_self p rest) e he)
      have hstore : s.Store p =
          { packets := s.packets ++ [(p.ID, p)], maxSize := s.maxSize } := by
        calc s.Store p
            = { packets := (s.Store p).packets,
                maxSize := (s.Store p).maxSize } := rfl
          _ = _ := by rw [h1, Store_maxSize]
      rw [List.map_cons, List.nodup_cons] at hnodup
      obtain ⟨hnd1, hnd2⟩ := hnodup
      rw [List.foldl_cons, hstore,
        ih { packets := s.packets ++ [(p.ID, p)], maxSize := s.maxSize }
          (by simp only [List.length_append, List.length_singleton]
              simp only [List.length_cons] at hlen
              push_cast at hlen ⊢
              omega)
          (by intro q hq e he
              rcases List.mem_append.mp he with h | h
              · exact hfresh q (List.mem_cons_of_mem p hq) e h
              · rcases List.mem_singleton.mp h with rfl
                intro hpq
                have hpq' : p.ID = q.ID := hpq
                exact hnd1 (by rw [hpq']; exact List.mem_map.mpr ⟨q, hq, rfl⟩))
          hnd2]
      simp

theorem claim_helper_entry_keys (l : List Packet) :
    (l.map (fun p => (p.ID, p))).map (fun e => e.1) = l.map Packet.ID := by
  rw [List.map_map]
  rfl

/-- C4, as stated, fails on the code for the same reason as C1: with
capacity 1 and two distinct-identifier inserts whose first (and earliest)
record carries the empty identifier, nothing is evicted — the earliest
record is still present and the store holds both records. -/
theorem claim_C4_counterexample :
    ((mkP "" 0).ID ∈ (([mkP "" 0, mkP "x" 1]).foldl InMemoryStorage.Store
        (NewInMemoryStorage 1)).packets.map (fun e => e.1)) ∧
      (([mkP "" 0, mkP "x" 1]).foldl InMemoryStorage.Store
          (NewInMemoryStorage 1)).packets.length = 2 := by
  constructor
  · show "" ∈ ["", "x"]
    exact List.mem_cons_self "" ["x"]
  · rfl

/-- C4 (amended): insert `N+1` records with distinct, non-empty identifiers
into a fresh store of capacity `N ≥ 1`; if `pj` is the record with the
strictly earliest creation timestamp among the first `N`, then the
identifier absent afterwards is exactly that of `pj`: the identifier of
every inserted record is stored except that of `pj`. -/
theorem claim_C4_eviction_correctness (N : Nat) (firstN : List Packet)
    (plast pj : Packet) (_hN : 1 ≤ N) (hlen : firstN.length = N)
    (hids : ((firstN ++ [plast]).map Packet.ID).Nodup)
    (hne : ∀ p ∈ firstN ++ [plast], p.ID ≠ "")
    (hj : pj ∈ firstN)
    (hmin : ∀ q ∈ firstN, q ≠ pj → pj.Timestamp < q.Timestamp) :
    ∀ p ∈ firstN ++ [plast],
      (p.ID ∈ ((firstN ++ [plast]).foldl InMemoryStorage.Store
          (NewInMemoryStorage (N : Int))).packets.map (fun e => e.1) ↔
        p ≠ pj) := by
  have hids' : (firstN.map Packet.ID ++ [plast.ID]).Nodup := by
    simpa using hids
  obtain ⟨hndfirst, -, hdisj⟩ := List.nodup_append.mp hids'
  have hlastne : ∀ q ∈ firstN, q.ID ≠ plast.ID := by
    intro q hq hqe
    exact hdisj (List.mem_map.mpr ⟨q, hq, rfl⟩) (hqe ▸ List.mem_singleton.mpr rfl)
  -- the first N inserts append fresh entries, no eviction
  have hfold : firstN.foldl InMemoryStorage.Store (NewInMemoryStorage (N : Int)) =
      { packets := firstN.map (fun p => (p.ID, p)), maxSize := (N : Int) } := by
    rw [foldl_Store_fresh firstN (NewInMemoryStorage (N : Int))
      (by simp [NewInMemoryStorage, hlen])
      (by intro p _ e he; exact absurd he (List.not_mem_nil e))
      hndfirst]
    simp [NewInMemoryStorage]
  -- the (N+1)-st insert evicts exactly the entry of pj, then appends
  set entries := firstN.map (fun p => (p.ID, p)) with hentries
  have hcap : ((entries.length : Int) ≥ (N : Int)) := by
    rw [hentries, List.length_map, hlen]
  have hfindpj : findOldest entries = pj.ID := by
    apply findOldest_min entries (pj.ID, pj) (List.mem_map.mpr ⟨pj, hj, rfl⟩)
    intro e he hepj
    rcases List.mem_map.mp he with ⟨q, hq, rfl⟩
    have hqpj : q ≠ pj := by
      intro h
      exact hepj (by rw [h])
    exact hmin q hq hqpj
  have hpjne : pj.ID ≠ "" := hne pj (List.mem_append_left _ hj)
  have hremove : InMemoryStorage.removeOldestPacket entries =
      mapDelete entries pj.ID := by
    rw [InMemoryStorage.removeOldestPacket]
    simp only [hfindpj]
    rw [if_pos hpjne]
  have hfinal : ((firstN ++ [plast]).foldl InMemoryStorage.Store
      (NewInMemoryStorage (N : Int))).packets =
      mapDelete entries pj.ID ++ [(plast.ID, plast)] := by
    rw [List.foldl_append, hfold, List.foldl_cons, List.foldl_nil,
      Store_packets]
    simp only []
    rw [if_pos hcap, hremove]
    apply mapInsert_append_of_fresh
    intro e he
    have hel : e ∈ entries := mapDelete_subset entries pj.ID e he
    rcases List.mem_map.mp hel with ⟨q, hq, rfl⟩
    exact hlastne q hq
  have hkeys : ((firstN ++ [plast]).foldl InMemoryStorage.Store
      (NewInMemoryStorage (N : Int))).packets.map (fun e => e.1) =
      (firstN.map Packet.ID).filter (fun x => x ≠ pj.ID) ++ [plast.ID] := by
    rw [hfinal, List.map_append, mapDelete_keys, hentries,
      claim_helper_entry_keys]
    rfl
  -- membership
  intro p hp
  rw [hkeys]
  rcases List.mem_append.mp hp with hpf | hpl
  · by_cases hppj : p = pj
    · subst hppj
      simp only [iff_iff_implies_and_implies]
      constructor
      · intro hmem
        exfalso
        rcases List.mem_append.mp hmem with h | h
        · have := (List.mem_filter.mp h).2
          simp at this
        · exact hlastne p hpf (List.mem_singleton.mp h)
      · intro h; exact absurd rfl h
    · have hidne : p.ID ≠ pj.ID := by
        intro h
        exact hppj (List.inj_on_of_nodup_map hids
          (List.mem_append_left _ hpf) (List.mem_append_left _ hj) h)
      constructor
      · intro _; exact hppj
      · intro _
        exact List.mem_append_left _ (List.mem_filter.mpr
          ⟨List.mem_map.mpr ⟨p, hpf, rfl⟩, by simpa using hidne⟩)
  · rcases List.mem_singleton.mp hpl with rfl
    have hppj : p ≠ pj := by
      intro h
      exact hlastne pj hj (by rw [h])
    constructor
    · intro _; exact hppj
    · intro _
      exact List.mem_append_right _ (List.mem_singleton.mpr rfl)

/-- Witness for C4 (amended): capacity 2, inserts `a@5`, `b@3`, then `c@9`
— the evicted identifier is exactly `b`, the earliest of the first two. -/
theorem claim_C4_witness :
    (mkP "b" 3).ID ∉ (([mkP "a" 5, mkP "b" 3] ++ [mkP "c" 9]).foldl
        InMemoryStorage.Store (NewInMemoryStorage (2 : Nat))).packets.map
      (fun e => e.1) := by
  intro hmem
  exact (claim_C4_eviction_correctness 2 [mkP "a" 5, mkP "b" 3] (mkP "c" 9)
      (mkP "b" 3) (by norm_num) rfl (by decide) (by decide) (by decide)
      (by decide) (mkP "b" 3) (by decide)).mp hmem rfl

/-- Concrete store used for C3: capacity 2, filled to capacity. -/
def storeB : InMemoryStorage :=
  InMemoryStorage.Store
    (InMemoryStorage.Store (NewInMemoryStorage 2) (mkP "a" 0)) (mkP "b" 10)

/-- C3, as stated, fails on the code: `Store` evicts whenever
`len(s.packets) >= s.maxSize`, with no check that the inserted identifier
is new.  Concretely, `storeB` is at capacity 2 with identifiers
`{a, b}`; storing a record whose identifier `b` is already present evicts
the oldest record `a`, leaving the identifier set `{b}` — the overwritten
record is replaced, but another record is evicted and the identifier set
changes. -/
theorem claim_C3_counterexample :
    (storeB.packets.length : Int) = storeB.maxSize ∧
      (∃ e ∈ storeB.packets, e.1 = "b") ∧
      ("a" ∈ storeB.packets.map (fun e => e.1)) ∧
      ((storeB.Store (mkP "b" 20)).packets.map (fun e => e.1) = ["b"]) := by
  refine ⟨rfl, ⟨("b", mkP "b" 10), ?_, rfl⟩, ?_, rfl⟩
  · show ("b", mkP "b" 10) ∈ [("a", mkP "a" 0), ("b", mkP "b" 10)]
    exact List.mem_cons_of_mem _ (List.mem_cons_self _ _)
  · show "a" ∈ ["a", "b"]
    exact List.mem_cons_self _ _

/-- C3 (amended): when the store size has reached capacity, `Store` evicts
the globally-oldest record even if the inserted identifier is already
present.  With distinct non-empty identifiers, a uniquely-oldest record `q`
and an inserted record `p` whose identifier is present but differs from
that of `q`, the stored identifier set loses exactly `q.ID` (so it is *not*
unchanged) and the record count drops by one. -/
theorem claim_C3_eviction_on_overwrite (s : InMemoryStorage) (p q : Packet)
    (hq : (q.ID, q) ∈ s.packets)
    (hnodup : (s.packets.map (fun e => e.1)).Nodup)
    (hne : ∀ e ∈ s.packets, e.1 ≠ "")
    (hcap : (s.packets.length : Int) ≥ s.maxSize)
    (hpmem : ∃ e ∈ s.packets, e.1 = p.ID)
    (hmin : ∀ e ∈ s.packets, e ≠ (q.ID, q) → q.Timestamp < e.2.Timestamp)
    (hqp : q.ID ≠ p.ID) :
    ((s.Store p).packets.map (fun e => e.1)) =
        ((s.packets.map (fun e => e.1)).filter (fun x => x ≠ q.ID)) ∧
      (s.Store p).packets.length + 1 = s.packets.length := by
  have hfind : findOldest s.packets = q.ID :=
    findOldest_min s.packets (q.ID, q) hq hmin
  have hqne : q.ID ≠ "" := hne (q.ID, q) hq
  have hremove : InMemoryStorage.removeOldestPacket s.packets =
      mapDelete s.packets q.ID := by
    rw [InMemoryStorage.removeOldestPacket]
    simp only [hfind]
    rw [if_pos hqne]
  have hpacks : (s.Store p).packets =
      mapInsert (mapDelete s.packets q.ID) p.ID p := by
    rw [Store_packets, if_pos hcap, hremove]
  have hpresent : ∃ e ∈ mapDelete s.packets q.ID, e.1 = p.ID := by
    rcases hpmem with ⟨e, he, hep⟩
    refine ⟨e, List.mem_filter.mpr ⟨he, ?_⟩, hep⟩
    simp only [decide_eq_true_eq]
    rw [hep]
    exact fun h => hqp h.symm
  obtain ⟨hkeys, hlen⟩ :=
    mapInsert_keys_of_mem (mapDelete s.packets q.ID) p.ID p hpresent
  constructor
  · rw [hpacks, hkeys, mapDelete_keys]
  · rw [hpacks, hlen]
    exact mapDelete_length s.packets q.ID q hq hnodup

/-- Witness for C3 (amended) at the concrete `storeB`: overwriting `b`
while at capacity evicts `a` — the identifier set shrinks to `{b}`. -/
theorem claim_C3_witness :
    ((storeB.Store (mkP "b" 20)).packets.map (fun e => e.1)) =
        ((storeB.packets.map (fun e => e.1)).filter
          (fun x => x ≠ (mkP "a" 0).ID)) ∧
      (storeB.Store (mkP "b" 20)).packets.length + 1 =
        storeB.packets.length :=
  claim_C3_eviction_on_overwrite storeB (mkP "b" 20) (mkP "a" 0)
    (by decide) (by decide) (by decide) (by decide)
    ⟨("b", mkP "b" 10), by decide, rfl⟩ (by decide) (by decide)

/-! ### Scheduler lifecycle, synthesis and identifier claims -/

/-- C6 is a code bug: the scheduler is not restartable.  `Stop` executes
`close(s.stopChan)` and the channel is never recreated, so after
Start–Stop–Start the flag reports Running again but the freshly spawned
select of the new loop finds the closed `stopChan` immediately ready (the ticker
only fires after a full interval) and returns without storing anything,
over every horizon `n`; by contrast the loop of a first run (open channel,
live context) stores one packet per tick. -/
theorem claim_C6_restart_loop_dead :
    PacketSniffer.Stop (PacketSniffer.Start NewPacketSniffer) =
        some { isRunning := false, stopClosed := true } ∧
      (PacketSniffer.Start
          { isRunning := false, stopClosed := true }).IsRunning = true ∧
      (∀ n : Nat, tickLoop false
        (PacketSniffer.Start
          { isRunning := false, stopClosed := true }).stopClosed n = 0) ∧
      (∀ n : Nat, tickLoop false
        (PacketSniffer.Start NewPacketSniffer).stopClosed n = n) := by
  refine ⟨rfl, rfl, ?_, ?_⟩
  · intro n
    cases n with
    | zero => rfl
    | succ k => rfl
  · intro n
    show tickLoop false false n = n
    induction n with
    | zero => rfl
    | succ k ih =>
        show 1 + tickLoop false false k = k + 1
        rw [ih]
        omega

theorem generateRandomPacket_size (r : SnifferRand) (p : Packet)
    (h : generateRandomPacket r = some p) :
    p.Size = ((r.sizeDraw % 1436 : Nat) : Int) + 64 := by
  simp only [generateRandomPacket] at h
  cases hpd : pickDest
      (commonIPs.getD (randIntn commonIPs.length r.srcDraw) "") r.destDraws with
  | none => rw [hpd] at h; exact absurd h (by simp)
  | some destIP =>
      rw [hpd] at h
      simp only [Option.some.injEq] at h
      obtain rfl := h
      by_cases h1 : r.ttlCoin = true <;>
        by_cases h2 : r.flagsCoin = true <;>
        simp [h1, h2, randIntn, NewPacket] <;>
        first
        | rfl
        | (split <;> rfl)

/-- C7 is a code bug: `size := rand.Intn(1436) + 64` draws uniformly from
`[64, 1499]`.  The `Size` of every generated packet lies in `[64, 1499]` — in
particular it is never `1500` — and conversely every value of `[64, 1499]`
is attainable, so the attainable set is exactly `[64, 1499]`, not the
`[64, 1500]` stated by the claim and by the comment in the code. -/
theorem claim_C7_size_range :
    (∀ (r : SnifferRand) (p : Packet), generateRandomPacket r = some p →
        64 ≤ p.Size ∧ p.Size ≤ 1499 ∧ p.Size ≠ 1500) ∧
      (∀ k : Int, 64 ≤ k → k ≤ 1499 →
        ∃ (r : SnifferRand) (p : Packet),
          generateRandomPacket r = some p ∧ p.Size = k) := by
  constructor
  · intro r p h
    have hs := generateRandomPacket_size r p h
    have hmod : r.sizeDraw % 1436 < 1436 := Nat.mod_lt _ (by norm_num)
    omega
  · intro k hk1 hk2
    refine ⟨⟨0, [1], 0, 0, (k - 64).toNat, false, 0, false, 0, 0, 0, 0, 0⟩,
      _, rfl, ?_⟩
    show (((k - 64).toNat % 1436 : Nat) : Int) + 64 = k
    have : (k - 64).toNat % 1436 = (k - 64).toNat :=
      Nat.mod_eq_of_lt (by omega)
    omega

/-- Witness for C7: the boundary value 1499 is attainable. -/
theorem claim_C7_witness :
    ∃ (r : SnifferRand) (p : Packet),
      generateRandomPacket r = some p ∧ p.Size = 1499 :=
  claim_C7_size_range.2 1499 (by norm_num) (by norm_num)

/-- C8 is a code bug: `generatePacketID` derives the identifier purely from
the wall-clock readings (no counter, no randomness), so two `NewPacket`
calls that observe the same clock readings — possible under coarse clock
granularity or concurrent calls — produce identical IDs whatever the other
fields are, violating the uniqueness invariant claimed by the spec and by
the doc comment of the function itself.  The second conjunct grounds the model at
a concrete reading. -/
theorem claim_C8_id_collision :
    (∀ (t1 t2 : Nat) (now now2 : Int)
        (src1 dst1 proto1 src2 dst2 proto2 : String)
        (port1 size1 port2 size2 : Int),
      (NewPacket src1 dst1 proto1 port1 size1 t1 t2 now).ID =
        (NewPacket src2 dst2 proto2 port2 size2 t1 t2 now2).ID) ∧
      generatePacketID 0 0 = "packet_19700101000000_000000000" :=
  ⟨fun _ _ _ _ _ _ _ _ _ _ _ _ _ _ => rfl, rfl⟩

/-- C10 is a code bug: `isRunning` is a plain bool read and written with no
mutex or atomic (the `PacketSniffer` struct has no synchronization field),
so two concurrent `Stop` calls can interleave as guard–guard–close–close:
both pass the `if !s.isRunning` check (program counters 1 and 1 after the
two guard steps), both reach `close(s.stopChan)`, and the second close
panics.  Under a fully sequential schedule the same two calls are safe —
the race, not the pair of calls, is the failure. -/
theorem claim_C10_stop_race :
    ((runTwoStops [true, false]
        ({ isRunning := true, stopClosed := false, panicked := false },
          0, 0)).2 = (1, 1)) ∧
      (runTwoStops [true, false, true, false]
        ({ isRunning := true, stopClosed := false, panicked := false },
          0, 0)).1.panicked = true ∧
      (runTwoStops [true, true, true, false]
        ({ isRunning := true, stopClosed := false, panicked := false },
          0, 0)).1.panicked = false :=
  ⟨rfl, rfl, rfl⟩
